import Mathlib

/-!
Verification development for the mnd_spi_app repository (statistical forest
inventory, SPI).  The Python sources are shallowly embedded as executable Lean
definitions:

* `mnd_spi_app/spi_utils.py`   – string/number formatting helpers,
* `mnd_spi_app/islh_schema.py` – the zero-or-range validation predicate,
* `mnd_spi_app/spi_model_vysek.py` – height-model candidate comparison,
* `mnd_spi_app/spi.py`         – the pipeline orchestrator (`spi.vypocet`),
  the CSV import step (`import_csv_dat`) and the height-model step,
* `mnd_spi_app/vypocet.py`     – the process entry point (`main`).

Python strings are modelled as `List Char`, Python dictionaries as association
lists, Python floats as `ℚ`, the Python value `None` as `Option.none`, and a
raised exception as the `.error` case of `Except`.
-/

/-! ## spi_utils.py -/

/-- Model of Python `str.split('.')` (used as `str(zdroj).split('.')` in
`dopln_des_mista`): splits a character list at every `'.'`; the result is
always non-empty and the separators are dropped. -/
def rozdel_tecky : List Char → List (List Char)
  | [] => [[]]
  | c :: zbytek =>
    match rozdel_tecky zbytek with
    | [] => [[]]
    | kus :: dalsi => if c = '.' then [] :: kus :: dalsi else (c :: kus) :: dalsi

/-- Model of Python `s.ljust(pocet, '0')`: pad on the right with `'0'` up to
length `pocet`; a string that is already long enough is returned unchanged. -/
def ljust_nuly (s : List Char) (pocet : Nat) : List Char :=
  s ++ List.replicate (pocet - s.length) '0'

/-- Embedding of `spi_utils.dopln_des_mista(zdroj, pocet)`.  The source splits
`str(zdroj)` on `'.'`; for `pocet == 0` it returns `rozpad[0]`, otherwise it
returns `rozpad[0] + '.' + '0' * pocet` when there was no decimal point, and
`rozpad[0] + '.' + rozpad[1].ljust(pocet, '0')` otherwise.  The decimal-place
count is modelled as `Nat` (the configuration only ever passes non-negative
counts). -/
def dopln_des_mista (zdroj : List Char) (pocet : Nat) : List Char :=
  let rozpad := rozdel_tecky zdroj
  if pocet = 0 then
    rozpad.headD []
  else
    match rozpad with
    | [] => []
    | [cela] => cela ++ '.' :: List.replicate pocet '0'
    | cela :: des :: _ => cela ++ '.' :: ljust_nuly des pocet

/-- Python dictionary assignment `d[k] = v` on an association list: replace the
value at the first occurrence of the key, keeping the key order; append the
entry when the key is absent. -/
def dict_set {α : Type} : List (String × α) → String → α → List (String × α)
  | [], k, v => [(k, v)]
  | (k0, v0) :: zbytek, k, v =>
    if k0 = k then (k0, v) :: zbytek else (k0, v0) :: dict_set zbytek k v

/-- Embedding of `spi_utils.oprav_format_cisel(zdroj, format)`.  The source
copies the input dictionary (`vystup = zdroj.copy()`), then for every
`(pole, pocet)` in `format` with `pole in zdroj` assigns
`vystup[pole] = dopln_des_mista(zdroj[pole], pocet)`, and returns the copy;
`zdroj` itself is never written to, which the pure embedding reflects by
folding over a fresh copy. -/
def oprav_format_cisel (zdroj : List (String × List Char))
    (format : List (String × Nat)) : List (String × List Char) :=
  format.foldl
    (fun vystup pole =>
      match zdroj.lookup pole.1 with
      | some hodnota => dict_set vystup pole.1 (dopln_des_mista hodnota pole.2)
      | none => vystup)
    zdroj

/-! ## islh_schema.py -/

/-- Embedding of `islh_schema.check_range_or_zero(min_val, max_val)`: the
returned predicate `_check(x)` is `(x == 0) | ((x >= min_val) & (x <= max_val))`.
Floats are modelled as rationals. -/
def check_range_or_zero (min_val max_val : ℚ) (x : ℚ) : Bool :=
  (x == 0) || (decide (min_val ≤ x) && decide (x ≤ max_val))

/-! ## spi.py – the pipeline orchestrator (`spi.vypocet`)

The run configuration `vypocet_config` is a nested YAML structure; only its
dictionary shape and the truthiness of its values matter to the orchestrator,
so scalars are abstracted to their truth value. -/

/-- Nested run configuration: either a scalar (abstracted to its Python
truthiness) or a dictionary. -/
inductive Konfig where
  | skalar (b : Bool)
  | slovnik (polozky : List (String × Konfig))
deriving Repr

/-- Python truthiness of a configuration value: a scalar by its value, a
dictionary by non-emptiness. -/
def Konfig.pravdivost : Konfig → Bool
  | .skalar b => b
  | .slovnik polozky => !polozky.isEmpty

/-- Embedding of the gating walk in `spi.vypocet`
(`for klic in krok['konfig_klic'].split('.'): konfig_hodnota =
konfig_hodnota.get(klic, {})`): each `dict.get` returns `{}` for a missing
key, and calling `.get` on a scalar raises `AttributeError`, modelled by
`.error`.  The dotted key is modelled already split into its segments. -/
def konfigCesta : Konfig → List String → Except String Konfig
  | hodnota, [] => .ok hodnota
  | .slovnik polozky, klic :: zbytek =>
    konfigCesta ((polozky.lookup klic).getD (.slovnik [])) zbytek
  | .skalar _, _ :: _ => .error "AttributeError"

/-- Embedding of
`self.vypocet_config['nastaveni_vypoctu'].get('ignorovat_varovani', 0)`:
the `['nastaveni_vypoctu']` subscript raises `KeyError` when the key is
missing, and `.get` on a scalar raises `AttributeError`; otherwise the flag
defaults to `0` (falsy). -/
def ignorovatVarovani : Konfig → Except String Bool
  | .slovnik polozky =>
    match polozky.lookup "nastaveni_vypoctu" with
    | none => .error "KeyError"
    | some (.skalar _) => .error "AttributeError"
    | some (.slovnik nastaveni) =>
      .ok (((nastaveni.lookup "ignorovat_varovani").getD (.skalar false)).pravdivost)
  | .skalar _ => .error "TypeError"

/-- One entry of `kroky_config['kroky']` (the step registry
`vypocet_kroky.yaml`): the protocol message, the dotted configuration key
(already split on `'.'`) and the method name looked up by `getattr`. -/
structure Krok where
  zprava : String
  konfigKlic : List String
  metoda : String
deriving Repr

/-- Behaviour of one invocation `getattr(self, krok['metoda'])()`: the method
either returns a value (`none` models the Python value `None`) or raises an
exception carrying its rendered message and the `traceback.format_exc()`
text. -/
inductive VysledekMetody where
  | vraci (v : Option Int)
  | vyjimka (chyba : String) (trasa : String)
deriving Repr

/-- Observable behaviour of one `spi.vypocet` run: the protocol lines it
writes, the methods it actually invokes (in order), and its return value —
`.ok none` when the loop runs to completion (Python falls off the end and
returns `None`), `.ok (some n)` for `return n`, `.error e` when an exception
escapes `vypocet` itself. -/
structure Beh where
  log : List String
  volani : List String
  navrat : Except String (Option Int)
deriving Repr

/-- Embedding of the step loop of `spi.vypocet` (spi.py, lines 3003–3037),
processing the remaining steps: resolve the gating flag by the dotted walk;
a disabled step only logs "nebylo prováděno"; an enabled step is invoked and
its result dispatched — `0` continues, `10` continues only when warnings are
ignored (otherwise `return 1`), anything else logs the error and `return 1`;
an exception from the method is caught, logged with its trace and answered
with `return 20`. -/
def vypocetKroky (cfg : Konfig) (beh : String → VysledekMetody) : List Krok → Beh
  | [] => ⟨["Ukončení výpočtu"], [], .ok none⟩
  | krok :: zbytek =>
    match konfigCesta cfg krok.konfigKlic with
    | .error e => ⟨[], [], .error e⟩
    | .ok hodnota =>
      if hodnota.pravdivost then
        let zacatek := ">>> " ++ krok.zprava ++ " >>>"
        match beh krok.metoda with
        | .vyjimka chyba trasa =>
          ⟨[zacatek, "Chyba při volání metody " ++ krok.metoda ++ ": " ++ chyba
              ++ " \n " ++ trasa],
            [krok.metoda], .ok (some 20)⟩
        | .vraci v =>
          if v = some 0 then
            let dalsi := vypocetKroky cfg beh zbytek
            ⟨zacatek :: (krok.zprava ++ " dokončena") :: dalsi.log,
              krok.metoda :: dalsi.volani, dalsi.navrat⟩
          else if v = some 10 then
            match ignorovatVarovani cfg with
            | .error e =>
              ⟨[zacatek, krok.zprava ++ " dokončena s varováním"],
                [krok.metoda], .error e⟩
            | .ok true =>
              let dalsi := vypocetKroky cfg beh zbytek
              ⟨zacatek :: (krok.zprava ++ " dokončena s varováním")
                  :: "..varování ignorováno" :: dalsi.log,
                krok.metoda :: dalsi.volani, dalsi.navrat⟩
            | .ok false =>
              ⟨[zacatek, krok.zprava ++ " dokončena s varováním",
                  "Zpracování ukončeno"],
                [krok.metoda], .ok (some 1)⟩
          else
            ⟨[zacatek, krok.zprava ++ " ukončeno s chybou", "Zpracování ukončeno"],
              [krok.metoda], .ok (some 1)⟩
      else
        let dalsi := vypocetKroky cfg beh zbytek
        ⟨(krok.zprava ++ " nebylo prováděno") :: dalsi.log,
          dalsi.volani, dalsi.navrat⟩

/-- Embedding of `spi.vypocet`: the opening protocol line followed by the step
loop. -/
def vypocet (lhc nazevFirmy : String) (cfg : Konfig)
    (beh : String → VysledekMetody) (kroky : List Krok) : Beh :=
  let b := vypocetKroky cfg beh kroky
  ⟨("Zahájení výpočtu SPI pro LHC " ++ lhc ++ " " ++ nazevFirmy) :: b.log,
    b.volani, b.navrat⟩

/-- Embedding of `spi.__exit__` (spi.py, lines 67–74): when an exception is
propagating it is logged first, then "Uzavření protokolu" is logged and the
protocol file is closed; this runs on every exit path of the `with` block. -/
def protokolZaver : Except String (Option Int) → List String
  | .error chyba => ["Výpočet ukončen chybou: " ++ chyba, "Uzavření protokolu"]
  | .ok _ => ["Uzavření protokolu"]

/-- Observable behaviour of one whole process run of `vypocet.main`. -/
structure ProcesBeh where
  log : List String
  volani : List String
  exitKod : Nat
deriving Repr

/-- Embedding of `vypocet.main` together with `sys.exit(main())`
(vypocet.py, lines 14–30): `main` runs `vypocet_spi.vypocet()` inside the
`with spi.spi(...)` block and **discards its result**; `main` then falls off
the end and returns `None`, so `sys.exit(None)` terminates the process with
exit code `0`.  Only an exception escaping the `with` block (after
`spi.__exit__` has closed the protocol) makes CPython terminate with exit
code `1`.  The protocol log opens with the `spi.__init__` line and always
ends with the `spi.__exit__` lines. -/
def spiMain (lhc nazevFirmy : String) (cfg : Konfig)
    (beh : String → VysledekMetody) (kroky : List Krok) : ProcesBeh :=
  let b := vypocet lhc nazevFirmy cfg beh kroky
  { log := ("Zahájení nového výpočtu pro LHC " ++ lhc) :: b.log
      ++ protokolZaver b.navrat,
    volani := b.volani,
    exitKod :=
      match b.navrat with
      | .error _ => 1
      | .ok _ => 0 }

/-! ## spi_model_vysek.py – height-model comparison and selection

The nonlinear fitting itself (`scipy.optimize.curve_fit`, `r2_score`,
`mean_squared_error` inside `fituj_funkci`) is floating-point numerics in an
external library; it is abstracted as a function from the candidate name to
an optional fit result (`none` models the `RuntimeError` branch of
`fituj_funkci`, which returns `(None, None, None)`).  The comparison loop of
`srovnej_funkce` and the dictionary lookup of `zpracuj_data` are embedded
from the source. -/

/-- One successful result of `fituj_funkci`: the fitted parameters, the
coefficient of determination and the root-mean-square error, with floats
modelled as rationals. -/
structure FitVysledek where
  parametry : List ℚ
  r2 : ℚ
  rmse : ℚ
deriving Repr, DecidableEq

/-- The fixed candidate iteration order of `srovnej_funkce`:
`list(self.funkce.keys())` in the insertion order of the `self.funkce`
dictionary built in `ModelVysek.__init__`. -/
def nazvyFunkci : List String := ["michajlov", "korf", "naslund", "petersen"]

/-- The mutable comparison state of `srovnej_funkce`: the accumulated result
rows and the running best candidate.  `nejlepsi_r2` starts at `-float('inf')`,
modelled by `⊥` in `WithBot ℚ`; the remaining best fields start at `None`. -/
structure Srovnani where
  vysledky : List (String × FitVysledek)
  nejlepsiFunkce : Option String
  nejlepsiR2 : WithBot ℚ
  nejlepsiParametry : Option (List ℚ)
  nejlepsiRmse : Option ℚ

/-- The initial state of the comparison loop in `srovnej_funkce`. -/
def srovnaniZacatek : Srovnani := ⟨[], none, ⊥, none, none⟩

/-- One iteration of the loop `for nazev_funkce in nazvy_funkci` in
`srovnej_funkce`: a failed fit (`parametry is None`) is skipped; a successful
fit is appended to `vysledky` and replaces the running best exactly when
`r2 > nejlepsi_r2` (strictly). -/
def srovnejKrok (fituj : String → Option FitVysledek) (s : Srovnani)
    (nazev : String) : Srovnani :=
  match fituj nazev with
  | none => s
  | some f =>
    let s1 := { s with vysledky := s.vysledky ++ [(nazev, f)] }
    if s.nejlepsiR2 < (f.r2 : WithBot ℚ) then
      { s1 with
        nejlepsiFunkce := some nazev
        nejlepsiR2 := (f.r2 : WithBot ℚ)
        nejlepsiParametry := some f.parametry
        nejlepsiRmse := some f.rmse }
    else s1

/-- Embedding of `ModelVysek.srovnej_funkce` (spi_model_vysek.py, lines
202–292): fold the comparison step over the fixed candidate order.  The
plotting calls have no effect on the returned data and are omitted. -/
def srovnej_funkce (fituj : String → Option FitVysledek) : Srovnani :=
  nazvyFunkci.foldl (srovnejKrok fituj) srovnaniZacatek

/-- The list of successful fits in candidate order, as accumulated in the
`vysledky` rows of `srovnej_funkce`. -/
def uspesneFity (fituj : String → Option FitVysledek)
    (nazvy : List String) : List (String × FitVysledek) :=
  nazvy.filterMap (fun n => (fituj n).map (fun f => (n, f)))

/-- Embedding of the model-selection path of `ModelVysek.zpracuj_data`
(spi_model_vysek.py, lines 352–356) for `nazev_funkce == ''`: after
`srovnej_funkce`, the source reads `pouzita_funkce = self.nejlepsi_funkce` and
then evaluates `funkce_obj = self.funkce[pouzita_funkce]` — a dictionary
subscript that raises `KeyError` when `pouzita_funkce` is `None` (every
candidate failed) instead of returning the `(None, None)` sentinel.  On
success it returns the chosen function name and its parameters. -/
def zpracujDataVyberFunkce (fituj : String → Option FitVysledek) :
    Except String (String × List ℚ) :=
  let s := srovnej_funkce fituj
  match s.nejlepsiFunkce with
  | none => .error "KeyError: None"
  | some pouzitaFunkce =>
    if pouzitaFunkce ∈ nazvyFunkci then
      .ok (pouzitaFunkce, s.nejlepsiParametry.getD [])
    else .error "KeyError"

/-! ## spi.py – the CSV import step (`spi.import_csv_dat`) -/

/-- A typed cell value of an imported table, after the coercion pass of
`import_csv_dat` (numbers as rationals, everything textual as a string). -/
inductive Hodnota where
  | cislo (q : ℚ)
  | text (s : String)
deriving Repr, DecidableEq

/-- One imported row, as an association list from lower-cased column names to
values. -/
def Radek : Type := List (String × Hodnota)

/-- The value of a column in a row (validation only ever reads declared
columns that are present after coercion; a missing column is read as the
empty string). -/
def hodnotaSloupce (radek : Radek) (sloupec : String) : Hodnota :=
  (radek.lookup sloupec).getD (.text "")

/-- One column rule of a pandera schema from `islh_schema.py`: the column
name and its decidable check (for the numeric zero-or-range columns this is
`check_range_or_zero`). -/
structure SloupecPravidlo where
  nazev : String
  kontrola : Hodnota → Bool

/-- One row of the `e.failure_cases` frame reported by a failed pandera
validation: the offending column, row index and value. -/
structure PripadSelhani where
  sloupec : String
  indexRadku : Nat
  hodnota : Hodnota
deriving Repr, DecidableEq

/-- Failing cases of a single column rule over the rows, with their row
indices, starting at index `i`. -/
def selhaniSloupce (pravidlo : SloupecPravidlo) : Nat → List Radek → List PripadSelhani
  | _, [] => []
  | i, radek :: zbytek =>
    if pravidlo.kontrola (hodnotaSloupce radek pravidlo.nazev) then
      selhaniSloupce pravidlo (i + 1) zbytek
    else
      ⟨pravidlo.nazev, i, hodnotaSloupce radek pravidlo.nazev⟩
        :: selhaniSloupce pravidlo (i + 1) zbytek

/-- Modelled from the spec: the external pandera call
`schema.validate(df, lazy=True)` in `import_csv_dat` (spi.py, line 859).  The
pandera library is not part of this repository; per §4.1 of the spec its lazy
validation "collects all failing cases across all rows in one pass" rather
than stopping at the first violation, so the model returns every failing
(column, row) cell, check by check in schema order. -/
def pripadySelhani (pravidla : List SloupecPravidlo) (radky : List Radek) :
    List PripadSelhani :=
  pravidla.flatMap (fun p => selhaniSloupce p 0 radky)

/-- Independent count of the constraint violations of a dataset: for each
column rule, the number of rows whose value fails the check. -/
def pocetPoruseni (pravidla : List SloupecPravidlo) (radky : List Radek) : Nat :=
  (pravidla.map
    (fun p => (radky.filter
      (fun r => !p.kontrola (hodnotaSloupce r p.nazev))).length)).sum

/-- One entry of the `import_csv.data` configuration of `import_csv_dat`,
with the observable state of the corresponding CSV file: whether the entry is
enabled, whether the file exists, the declared schema (`get_schema` returns
`None` for a dataset without one) and the coerced rows. -/
structure SouborImport where
  nazev : String
  provadet : Bool
  existuje : Bool
  pravidla : Option (List SloupecPravidlo)
  radky : List Radek

/-- Observable behaviour of one `import_csv_dat` run: the failure cases
logged per file, the files written to the database via `to_sql` (in order),
and the step's result code. -/
structure ImportBeh where
  hlaseni : List (String × List PripadSelhani)
  ulozeno : List String
  navrat : Int
deriving Repr, DecidableEq

/-- Embedding of the file loop of `spi.import_csv_dat` (spi.py, lines
794–874) with the running `vysledek` accumulator: a disabled entry is only
logged as ignored; a missing file aborts the step with `return 20`; a file
with a schema is validated lazily — when there are failing cases they are all
logged and `vysledek = 10` — and the file is always written with `to_sql`;
a file without a schema is written without validation. -/
def importCsvDatOd (vysledek : Int) : List SouborImport → ImportBeh
  | [] => ⟨[], [], vysledek⟩
  | soubor :: zbytek =>
    if soubor.provadet then
      if !soubor.existuje then ⟨[], [], 20⟩
      else
        match soubor.pravidla with
        | some pravidla =>
          let pripady := pripadySelhani pravidla soubor.radky
          if pripady.isEmpty then
            let dalsi := importCsvDatOd vysledek zbytek
            ⟨dalsi.hlaseni, soubor.nazev :: dalsi.ulozeno, dalsi.navrat⟩
          else
            let dalsi := importCsvDatOd 10 zbytek
            ⟨(soubor.nazev, pripady) :: dalsi.hlaseni,
              soubor.nazev :: dalsi.ulozeno, dalsi.navrat⟩
        | none =>
          let dalsi := importCsvDatOd vysledek zbytek
          ⟨dalsi.hlaseni, soubor.nazev :: dalsi.ulozeno, dalsi.navrat⟩
    else
      importCsvDatOd vysledek zbytek

/-- Embedding of `spi.import_csv_dat`: the file loop started with
`vysledek = 0` (an empty configuration returns `0` directly, which the loop
base case also yields). -/
def import_csv_dat (soubory : List SouborImport) : ImportBeh :=
  importCsvDatOd 0 soubory

/-! ## Derived notions used by the theorems -/

/-- A step over which the orchestrator loop continues: it is disabled, or it
returns `0`, or it returns `10` while warnings are configured as ignorable. -/
def krokPokracuje (cfg : Konfig) (beh : String → VysledekMetody) (krok : Krok) : Bool :=
  match konfigCesta cfg krok.konfigKlic with
  | .error _ => false
  | .ok hodnota =>
    !hodnota.pravdivost ||
      (match beh krok.metoda with
       | .vraci (some 0) => true
       | .vraci (some 10) =>
         match ignorovatVarovani cfg with
         | .ok true => true
         | _ => false
       | _ => false)

/-- Specification-side recursion for the best-candidate choice: scan the
successful fits left to right, replacing the running best exactly on a strict
R² improvement.  Stated separately from `srovnejKrok` so that the loop of
`srovnej_funkce` can be compared against it. -/
def prvniMaxBeh : Option (String × FitVysledek) → List (String × FitVysledek) →
    Option (String × FitVysledek)
  | acc, [] => acc
  | none, x :: zbytek => prvniMaxBeh (some x) zbytek
  | some p, x :: zbytek =>
    prvniMaxBeh (if p.2.r2 < x.2.r2 then some x else some p) zbytek

/-- Specification of the claim for model selection: `p` splits the successful
fits into a strictly worse prefix and a no-better suffix, i.e. `p` attains the
maximum R² and is the first entry to do so (an exact R² tie is resolved in
favour of the earlier candidate; RMSE plays no role). -/
def jePrvniMax (l : List (String × FitVysledek)) (p : String × FitVysledek) : Prop :=
  ∃ l1 l2, l = l1 ++ p :: l2 ∧
    (∀ q ∈ l1, q.2.r2 < p.2.r2) ∧ (∀ q ∈ l2, q.2.r2 ≤ p.2.r2)

/-- Correspondence between the comparison state of `srovnej_funkce` and the
abstract running best: the four best-fields either all hold their initial
sentinels (`None`, `-inf`) or all describe one successful fit. -/
def stavOdpovida (s : Srovnani) : Option (String × FitVysledek) → Prop
  | none =>
    s.nejlepsiFunkce = none ∧ s.nejlepsiParametry = none ∧
      s.nejlepsiRmse = none ∧ s.nejlepsiR2 = ⊥
  | some p =>
    s.nejlepsiFunkce = some p.1 ∧ s.nejlepsiParametry = some p.2.parametry ∧
      s.nejlepsiRmse = some p.2.rmse ∧ s.nejlepsiR2 = (p.2.r2 : WithBot ℚ)

/-! ## Concrete fixtures used by the closed evaluation and witness theorems -/

/-- A two-step run configuration with both steps enabled and warnings not
ignorable. -/
def cfgPriklad : Konfig := .slovnik
  [("inicializace_lhp", .skalar true),
   ("import_csv", .slovnik [("provadet", .skalar true)]),
   ("nastaveni_vypoctu", .slovnik [("ignorovat_varovani", .skalar false)])]

/-- The same configuration with `ignorovat_varovani` set. -/
def cfgIgnoruj : Konfig := .slovnik
  [("inicializace_lhp", .skalar true),
   ("import_csv", .slovnik [("provadet", .skalar true)]),
   ("nastaveni_vypoctu", .slovnik [("ignorovat_varovani", .skalar true)])]

/-- First step of the fixture registry. -/
def krokPriklad1 : Krok := ⟨"Inicializace LHP", ["inicializace_lhp"], "inicializace_lhp"⟩

/-- Second step of the fixture registry. -/
def krokPriklad2 : Krok := ⟨"Import CSV dat", ["import_csv", "provadet"], "import_csv_dat"⟩

/-- Step behaviour where the first step fails with result `20` and every
other step succeeds. -/
def behSelhani : String → VysledekMetody := fun metoda =>
  if metoda == "inicializace_lhp" then .vraci (some 20) else .vraci (some 0)

/-- Step behaviour where the first step completes with warning `10` and every
other step succeeds. -/
def behVarovani : String → VysledekMetody := fun metoda =>
  if metoda == "inicializace_lhp" then .vraci (some 10) else .vraci (some 0)

/-- Step behaviour where every step succeeds. -/
def behUspech : String → VysledekMetody := fun _ => .vraci (some 0)

/-- Step behaviour where the first step raises an exception. -/
def behVyjimka : String → VysledekMetody := fun metoda =>
  if metoda == "inicializace_lhp" then
    .vyjimka "ValueError: spatna data" "Traceback (most recent call last): ..."
  else .vraci (some 0)

/-- Fit outcomes with an exact R² tie: `michajlov` fails, `korf` and
`naslund` tie on R² (with `naslund` having the better RMSE), `petersen` is
worse. -/
def fitujPriklad : String → Option FitVysledek := fun nazev =>
  if nazev == "michajlov" then none
  else if nazev == "korf" then some ⟨[1, 2], 9/10, 5⟩
  else if nazev == "naslund" then some ⟨[3, 4], 9/10, 1⟩
  else some ⟨[5, 6], 1/2, 0⟩

/-- The `tloustka_km` column rule of the `vz` schema: zero or within
`[7, 800]` (islh_schema.py, line 62). -/
def pravidloTloustka : SloupecPravidlo :=
  ⟨"tloustka_km",
   fun hodnota =>
     match hodnota with
     | .cislo q => check_range_or_zero 7 800 q
     | .text _ => false⟩

/-- Four fixture rows for the `tloustka_km` column; the rows at indices 1 and
3 violate the zero-or-range constraint. -/
def radkyPriklad : List Radek :=
  [[("tloustka_km", .cislo 0)], [("tloustka_km", .cislo 5)],
   [("tloustka_km", .cislo 30)], [("tloustka_km", .cislo 900)]]

/-- Fixture import file with a schema and two violating rows. -/
def souborVz : SouborImport := ⟨"vz", true, true, some [pravidloTloustka], radkyPriklad⟩

/-- Fixture import file without a schema. -/
def souborIp : SouborImport := ⟨"ip", true, true, none, []⟩

/-! ## Helper lemmas -/

theorem rozdel_tecky_neprazdny (l : List Char) : rozdel_tecky l ≠ [] := by
  cases l with
  | nil => simp [rozdel_tecky]
  | cons c t =>
    cases h : rozdel_tecky t with
    | nil => simp [rozdel_tecky, h]
    | cons kus dalsi =>
      by_cases hc : c = '.' <;> simp [rozdel_tecky, h, hc]

theorem rozdel_tecky_bez_tecky (a : List Char) (h : '.' ∉ a) :
    rozdel_tecky a = [a] := by
  induction a with
  | nil => rfl
  | cons c t ih =>
    have hc : ¬(c = '.') := fun e => h (e ▸ List.mem_cons_self c t)
    have ht : '.' ∉ t := fun m => h (List.mem_cons_of_mem _ m)
    simp [rozdel_tecky, ih ht, hc]

theorem rozdel_tecky_s_teckou (a b : List Char) (h : '.' ∉ a) :
    rozdel_tecky (a ++ '.' :: b) = a :: rozdel_tecky b := by
  induction a with
  | nil =>
    cases hb : rozdel_tecky b with
    | nil => exact absurd hb (rozdel_tecky_neprazdny b)
    | cons kus dalsi => simp [rozdel_tecky, hb]
  | cons c t ih =>
    have hc : ¬(c = '.') := fun e => h (e ▸ List.mem_cons_self c t)
    have ht : '.' ∉ t := fun m => h (List.mem_cons_of_mem _ m)
    simp [rozdel_tecky, ih ht, hc]

theorem retezce_beq_false {a b : String} (h : ¬a = b) : (a == b) = false :=
  beq_eq_false_iff_ne.mpr h

theorem lookup_dict_set {α : Type} (d : List (String × α)) (k k' : String) (v : α) :
    (dict_set d k v).lookup k' = if k' = k then some v else d.lookup k' := by
  induction d with
  | nil =>
    by_cases h : k' = k <;>
      simp [dict_set, List.lookup, h, retezce_beq_false]
  | cons p t ih =>
    obtain ⟨k0, v0⟩ := p
    by_cases h0 : k0 = k
    · subst h0
      by_cases h : k' = k0 <;>
        simp [dict_set, List.lookup, h, retezce_beq_false]
    · by_cases h : k' = k0
      · subst h
        have hne : ¬(k' = k) := fun e => h0 (e ▸ rfl)
        simp [dict_set, List.lookup, h0, hne, retezce_beq_false hne]
      · simp [dict_set, List.lookup, h0, h, ih, retezce_beq_false h]

theorem lookup_none_mimo_klice {α : Type} (l : List (String × α)) (k : String)
    (h : k ∉ l.map Prod.fst) : l.lookup k = none := by
  induction l with
  | nil => rfl
  | cons p t ih =>
    obtain ⟨k0, v0⟩ := p
    have hk : ¬(k = k0) := by
      intro e; exact h (by simp [e])
    have ht : k ∉ t.map Prod.fst := fun m => h (by simp [m])
    simp [List.lookup, retezce_beq_false hk, ih ht]

theorem oprav_foldl_lookup (zdroj : List (String × List Char)) :
    ∀ (format : List (String × Nat)) (acc : List (String × List Char)) (k : String),
      (format.map Prod.fst).Nodup →
      (format.foldl
        (fun vystup pole =>
          match zdroj.lookup pole.1 with
          | some hodnota => dict_set vystup pole.1 (dopln_des_mista hodnota pole.2)
          | none => vystup) acc).lookup k =
      (match format.lookup k, zdroj.lookup k with
       | some pocet, some hodnota => some (dopln_des_mista hodnota pocet)
       | _, _ => acc.lookup k) := by
  intro format
  induction format with
  | nil =>
    intro acc k _
    cases zdroj.lookup k <;> rfl
  | cons pole t ih =>
    intro acc k hnd
    obtain ⟨k0, p0⟩ := pole
    have hk0 : k0 ∉ t.map Prod.fst := by
      have := hnd
      simp only [List.map_cons, List.nodup_cons] at this
      exact this.1
    have ht : (t.map Prod.fst).Nodup := by
      have := hnd
      simp only [List.map_cons, List.nodup_cons] at this
      exact this.2
    rw [List.foldl_cons, ih _ k ht]
    by_cases hk : k = k0
    · subst hk
      have htl : t.lookup k = none := lookup_none_mimo_klice t k hk0
      cases hz : zdroj.lookup k with
      | none => simp [htl, hz, List.lookup]
      | some v => simp [htl, hz, List.lookup, lookup_dict_set]
    · have hlk : ((k0, p0) :: t).lookup k = t.lookup k := by
        simp [List.lookup, retezce_beq_false hk]
      rw [hlk]
      have hacc :
          (match zdroj.lookup k0 with
           | some hodnota => dict_set acc k0 (dopln_des_mista hodnota p0)
           | none => acc).lookup k = acc.lookup k := by
        cases hz0 : zdroj.lookup k0 with
        | none => rfl
        | some v => simp [lookup_dict_set, hk]
      cases t.lookup k <;> cases zdroj.lookup k <;> simp [hacc]

theorem vypocetKroky_zapnuty_volani (cfg : Konfig) (beh : String → VysledekMetody)
    (krok : Krok) (rest : List Krok) (hodnota : Konfig)
    (hcesta : konfigCesta cfg krok.konfigKlic = .ok hodnota)
    (hpravda : hodnota.pravdivost = true) :
    ∃ t, (vypocetKroky cfg beh (krok :: rest)).volani = krok.metoda :: t := by
  simp only [vypocetKroky, hcesta, hpravda, if_true]
  cases hb : beh krok.metoda with
  | vyjimka chyba trasa => exact ⟨[], rfl⟩
  | vraci val =>
    by_cases h0 : val = some 0
    · simp [h0]
    · by_cases h10 : val = some 10
      · cases hig : ignorovatVarovani cfg with
        | error e => simp [h0, h10, hig]
        | ok b => cases b <;> simp [h0, h10, hig]
      · simp [h0, h10]

theorem vypocetKroky_pokracovani (cfg : Konfig) (beh : String → VysledekMetody) :
    ∀ (pre rest : List Krok), (∀ k ∈ pre, krokPokracuje cfg beh k = true) →
    ∃ l vol, vypocetKroky cfg beh (pre ++ rest) =
        ⟨l ++ (vypocetKroky cfg beh rest).log,
         vol ++ (vypocetKroky cfg beh rest).volani,
         (vypocetKroky cfg beh rest).navrat⟩ ∧
      ∀ m ∈ vol, ∃ k ∈ pre, m = k.metoda := by
  intro pre
  induction pre with
  | nil =>
    intro rest _
    exact ⟨[], [], rfl, by simp⟩
  | cons k pre ih =>
    intro rest h
    have hk := h k (List.mem_cons_self k pre)
    have hpre : ∀ k' ∈ pre, krokPokracuje cfg beh k' = true :=
      fun k' hm => h k' (List.mem_cons_of_mem _ hm)
    obtain ⟨l, vol, heq, hmem⟩ := ih rest hpre
    unfold krokPokracuje at hk
    cases hc : konfigCesta cfg k.konfigKlic with
    | error e => rw [hc] at hk; simp at hk
    | ok hodnota =>
      rw [hc] at hk
      by_cases hp : hodnota.pravdivost
      · simp only [hp, Bool.not_true, Bool.false_or] at hk
        cases hb : beh k.metoda with
        | vyjimka chyba trasa => rw [hb] at hk; simp at hk
        | vraci val =>
          rw [hb] at hk
          by_cases h0 : val = some 0
          · subst h0
            refine ⟨(">>> " ++ k.zprava ++ " >>>") :: (k.zprava ++ " dokončena") :: l,
              k.metoda :: vol, ?_, ?_⟩
            · simp only [List.cons_append, vypocetKroky, hc, hp, if_true, hb,
                if_pos rfl, List.append_eq, heq]
            · intro m hm
              rcases List.mem_cons.mp hm with hmk | hmvol
              · exact ⟨k, List.mem_cons_self k pre, hmk⟩
              · obtain ⟨k', hk', he⟩ := hmem m hmvol
                exact ⟨k', List.mem_cons_of_mem _ hk', he⟩
          · by_cases h10 : val = some 10
            · subst h10
              cases hig : ignorovatVarovani cfg with
              | error e => simp [hig] at hk
              | ok b =>
                cases b
                · simp [hig] at hk
                · refine ⟨(">>> " ++ k.zprava ++ " >>>")
                      :: (k.zprava ++ " dokončena s varováním")
                      :: "..varování ignorováno" :: l,
                    k.metoda :: vol, ?_, ?_⟩
                  · have hne : ¬((some 10 : Option Int) = some 0) := by decide
                    simp only [List.cons_append, vypocetKroky, hc, hp, if_true, hb,
                      if_neg hne, if_pos rfl, hig, List.append_eq, heq]
                  · intro m hm
                    rcases List.mem_cons.mp hm with hmk | hmvol
                    · exact ⟨k, List.mem_cons_self k pre, hmk⟩
                    · obtain ⟨k', hk', he⟩ := hmem m hmvol
                      exact ⟨k', List.mem_cons_of_mem _ hk', he⟩
            · simp [h0, h10] at hk
      · have hp' : hodnota.pravdivost = false := by
          cases hhp : hodnota.pravdivost
          · rfl
          · exact absurd hhp hp
        refine ⟨(k.zprava ++ " nebylo prováděno") :: l, vol, ?_, ?_⟩
        · rw [List.cons_append]
          simp only [vypocetKroky, hc, hp', Bool.false_eq_true, if_false,
            List.append_eq, heq]
          rfl
        · intro m hm
          obtain ⟨k', hk', he⟩ := hmem m hm
          exact ⟨k', List.mem_cons_of_mem _ hk', he⟩

theorem vypocetKroky_varovani_stop (cfg : Konfig) (beh : String → VysledekMetody)
    (krok : Krok) (post : List Krok) (hodnota : Konfig)
    (hcesta : konfigCesta cfg krok.konfigKlic = .ok hodnota)
    (hpravda : hodnota.pravdivost = true)
    (hbeh : beh krok.metoda = .vraci (some 10))
    (hig : ignorovatVarovani cfg = .ok false) :
    vypocetKroky cfg beh (krok :: post) =
      ⟨[">>> " ++ krok.zprava ++ " >>>", krok.zprava ++ " dokončena s varováním",
          "Zpracování ukončeno"],
        [krok.metoda], .ok (some 1)⟩ := by
  have hne : ¬((some 10 : Option Int) = some 0) := by decide
  simp only [vypocetKroky, hcesta, hpravda, if_true, hbeh, if_neg hne,
    if_pos rfl, hig]

theorem vypocetKroky_varovani_dal (cfg : Konfig) (beh : String → VysledekMetody)
    (krok : Krok) (post : List Krok) (hodnota : Konfig)
    (hcesta : konfigCesta cfg krok.konfigKlic = .ok hodnota)
    (hpravda : hodnota.pravdivost = true)
    (hbeh : beh krok.metoda = .vraci (some 10))
    (hig : ignorovatVarovani cfg = .ok true) :
    vypocetKroky cfg beh (krok :: post) =
      ⟨(">>> " ++ krok.zprava ++ " >>>") :: (krok.zprava ++ " dokončena s varováním")
          :: "..varování ignorováno" :: (vypocetKroky cfg beh post).log,
        krok.metoda :: (vypocetKroky cfg beh post).volani,
        (vypocetKroky cfg beh post).navrat⟩ := by
  have hne : ¬((some 10 : Option Int) = some 0) := by decide
  simp only [vypocetKroky, hcesta, hpravda, if_true, hbeh, if_neg hne,
    if_pos rfl, hig]

theorem vypocetKroky_chyba_stop (cfg : Konfig) (beh : String → VysledekMetody)
    (krok : Krok) (post : List Krok) (hodnota : Konfig) (v : Option Int)
    (hcesta : konfigCesta cfg krok.konfigKlic = .ok hodnota)
    (hpravda : hodnota.pravdivost = true)
    (hbeh : beh krok.metoda = .vraci v)
    (h0 : v ≠ some 0) (h10 : v ≠ some 10) :
    vypocetKroky cfg beh (krok :: post) =
      ⟨[">>> " ++ krok.zprava ++ " >>>", krok.zprava ++ " ukončeno s chybou",
          "Zpracování ukončeno"],
        [krok.metoda], .ok (some 1)⟩ := by
  simp only [vypocetKroky, hcesta, hpravda, if_true, hbeh, if_neg h0, if_neg h10]

theorem vypocetKroky_vyjimka_stop (cfg : Konfig) (beh : String → VysledekMetody)
    (krok : Krok) (post : List Krok) (hodnota : Konfig) (chyba trasa : String)
    (hcesta : konfigCesta cfg krok.konfigKlic = .ok hodnota)
    (hpravda : hodnota.pravdivost = true)
    (hbeh : beh krok.metoda = .vyjimka chyba trasa) :
    vypocetKroky cfg beh (krok :: post) =
      ⟨[">>> " ++ krok.zprava ++ " >>>",
          "Chyba při volání metody " ++ krok.metoda ++ ": " ++ chyba
            ++ " \n " ++ trasa],
        [krok.metoda], .ok (some 20)⟩ := by
  simp only [vypocetKroky, hcesta, hpravda, if_true, hbeh]

/-! ## Claim theorems -/

/-- C2: when a step returns `10` after a prefix of steps over which the run
continues, then with `ignorovat_varovani` falsy the orchestrator returns the
non-zero result `1` and invokes no step after the warning step, while with
the flag truthy it logs that the warning was ignored and invokes the next
(enabled) step. -/
theorem C2_varovani_krok (cfg : Konfig) (beh : String → VysledekMetody)
    (pre post : List Krok) (krok : Krok) (hodnota : Konfig)
    (hpre : ∀ k ∈ pre, krokPokracuje cfg beh k = true)
    (hcesta : konfigCesta cfg krok.konfigKlic = .ok hodnota)
    (hpravda : hodnota.pravdivost = true)
    (hbeh : beh krok.metoda = .vraci (some 10)) :
    (ignorovatVarovani cfg = .ok false →
      (vypocetKroky cfg beh (pre ++ krok :: post)).navrat = .ok (some 1) ∧
      ∃ vol, (vypocetKroky cfg beh (pre ++ krok :: post)).volani
          = vol ++ [krok.metoda] ∧
        ∀ m ∈ vol, ∃ k ∈ pre, m = k.metoda) ∧
    (ignorovatVarovani cfg = .ok true →
      "..varování ignorováno" ∈ (vypocetKroky cfg beh (pre ++ krok :: post)).log ∧
      ∀ krok2 zbytek, post = krok2 :: zbytek →
        ∀ hodnota2, konfigCesta cfg krok2.konfigKlic = .ok hodnota2 →
          hodnota2.pravdivost = true →
          krok2.metoda ∈ (vypocetKroky cfg beh (pre ++ krok :: post)).volani) := by
  obtain ⟨l, vol, heq, hmem⟩ :=
    vypocetKroky_pokracovani cfg beh pre (krok :: post) hpre
  constructor
  · intro hig
    rw [vypocetKroky_varovani_stop cfg beh krok post hodnota hcesta hpravda
      hbeh hig] at heq
    rw [heq]
    exact ⟨rfl, ⟨vol, rfl, hmem⟩⟩
  · intro hig
    rw [vypocetKroky_varovani_dal cfg beh krok post hodnota hcesta hpravda
      hbeh hig] at heq
    constructor
    · rw [heq]
      simp
    · intro krok2 zbytek hpost hodnota2 hcesta2 hpravda2
      subst hpost
      obtain ⟨t, ht⟩ :=
        vypocetKroky_zapnuty_volani cfg beh krok2 zbytek hodnota2 hcesta2 hpravda2
      rw [heq]
      show krok2.metoda ∈ vol ++ krok.metoda
        :: (vypocetKroky cfg beh (krok2 :: zbytek)).volani
      rw [ht]
      simp

/-- C3: when a step returns any value other than `0` and `10` (including
`20` and the Python `None`) after a prefix over which the run continues, the
orchestrator returns the non-zero result `1` and invokes no subsequent step;
no hypothesis about `ignorovat_varovani` is needed, so this holds for every
value of the ignore-warnings flag. -/
theorem C3_chyba_krok (cfg : Konfig) (beh : String → VysledekMetody)
    (pre post : List Krok) (krok : Krok) (hodnota : Konfig) (v : Option Int)
    (hpre : ∀ k ∈ pre, krokPokracuje cfg beh k = true)
    (hcesta : konfigCesta cfg krok.konfigKlic = .ok hodnota)
    (hpravda : hodnota.pravdivost = true)
    (hbeh : beh krok.metoda = .vraci v)
    (h0 : v ≠ some 0) (h10 : v ≠ some 10) :
    (vypocetKroky cfg beh (pre ++ krok :: post)).navrat = .ok (some 1) ∧
    ∃ vol, (vypocetKroky cfg beh (pre ++ krok :: post)).volani
        = vol ++ [krok.metoda] ∧
      ∀ m ∈ vol, ∃ k ∈ pre, m = k.metoda := by
  obtain ⟨l, vol, heq, hmem⟩ :=
    vypocetKroky_pokracovani cfg beh pre (krok :: post) hpre
  rw [vypocetKroky_chyba_stop cfg beh krok post hodnota v hcesta hpravda
    hbeh h0 h10] at heq
  rw [heq]
  exact ⟨rfl, ⟨vol, rfl, hmem⟩⟩

/-- C5: when an enabled step's method raises, the orchestrator catches the
fault, logs it together with the full trace, answers with result code `20`
(so the run stops and no subsequent step is invoked), and the whole-process
log still ends with the protocol-closing line written by `spi.__exit__`. -/
theorem C5_vyjimka_krok (lhc nazevFirmy : String) (cfg : Konfig)
    (beh : String → VysledekMetody) (pre post : List Krok) (krok : Krok)
    (hodnota : Konfig) (chyba trasa : String)
    (hpre : ∀ k ∈ pre, krokPokracuje cfg beh k = true)
    (hcesta : konfigCesta cfg krok.konfigKlic = .ok hodnota)
    (hpravda : hodnota.pravdivost = true)
    (hbeh : beh krok.metoda = .vyjimka chyba trasa) :
    (vypocetKroky cfg beh (pre ++ krok :: post)).navrat = .ok (some 20) ∧
    ("Chyba při volání metody " ++ krok.metoda ++ ": " ++ chyba ++ " \n " ++ trasa)
      ∈ (vypocetKroky cfg beh (pre ++ krok :: post)).log ∧
    (∃ vol, (vypocetKroky cfg beh (pre ++ krok :: post)).volani
        = vol ++ [krok.metoda] ∧
      ∀ m ∈ vol, ∃ k ∈ pre, m = k.metoda) ∧
    (spiMain lhc nazevFirmy cfg beh (pre ++ krok :: post)).log.getLast?
      = some "Uzavření protokolu" := by
  obtain ⟨l, vol, heq, hmem⟩ :=
    vypocetKroky_pokracovani cfg beh pre (krok :: post) hpre
  rw [vypocetKroky_vyjimka_stop cfg beh krok post hodnota chyba trasa hcesta
    hpravda hbeh] at heq
  refine ⟨by rw [heq], ?_, ⟨vol, by rw [heq], hmem⟩, ?_⟩
  · rw [heq]
    simp
  · simp only [spiMain, vypocet, heq, protokolZaver]
    rw [← List.cons_append, ← List.cons_append, List.getLast?_concat]

/-- Witness for C2: first step warns under a configuration that ignores
warnings; the next enabled step is invoked. -/
theorem C2_varovani_krok_witness :
    (∀ k ∈ ([] : List Krok), krokPokracuje cfgIgnoruj behVarovani k = true) ∧
    konfigCesta cfgIgnoruj krokPriklad1.konfigKlic = .ok (.skalar true) ∧
    (Konfig.skalar true).pravdivost = true ∧
    behVarovani krokPriklad1.metoda = .vraci (some 10) ∧
    ((ignorovatVarovani cfgIgnoruj = .ok false →
      (vypocetKroky cfgIgnoruj behVarovani
        ([] ++ krokPriklad1 :: [krokPriklad2])).navrat = .ok (some 1) ∧
      ∃ vol, (vypocetKroky cfgIgnoruj behVarovani
          ([] ++ krokPriklad1 :: [krokPriklad2])).volani
          = vol ++ [krokPriklad1.metoda] ∧
        ∀ m ∈ vol, ∃ k ∈ ([] : List Krok), m = k.metoda) ∧
    (ignorovatVarovani cfgIgnoruj = .ok true →
      "..varování ignorováno" ∈ (vypocetKroky cfgIgnoruj behVarovani
        ([] ++ krokPriklad1 :: [krokPriklad2])).log ∧
      ∀ krok2 zbytek, [krokPriklad2] = krok2 :: zbytek →
        ∀ hodnota2, konfigCesta cfgIgnoruj krok2.konfigKlic = .ok hodnota2 →
          hodnota2.pravdivost = true →
          krok2.metoda ∈ (vypocetKroky cfgIgnoruj behVarovani
            ([] ++ krokPriklad1 :: [krokPriklad2])).volani)) :=
  ⟨fun _ hk => absurd hk (List.not_mem_nil _), rfl, rfl, rfl,
   C2_varovani_krok cfgIgnoruj behVarovani [] [krokPriklad2] krokPriklad1
     (.skalar true) (fun _ hk => absurd hk (List.not_mem_nil _)) rfl rfl rfl⟩

/-- Witness for C3: after a succeeding first step, the second step returns
`20` and the run stops with result `1`. -/
theorem C3_chyba_krok_witness :
    (∀ k ∈ [krokPriklad2], krokPokracuje cfgPriklad behSelhani k = true) ∧
    konfigCesta cfgPriklad krokPriklad1.konfigKlic = .ok (.skalar true) ∧
    (Konfig.skalar true).pravdivost = true ∧
    behSelhani krokPriklad1.metoda = .vraci (some 20) ∧
    (some 20 : Option Int) ≠ some 0 ∧ (some 20 : Option Int) ≠ some 10 ∧
    ((vypocetKroky cfgPriklad behSelhani
        ([krokPriklad2] ++ krokPriklad1 :: [])).navrat = .ok (some 1) ∧
     ∃ vol, (vypocetKroky cfgPriklad behSelhani
         ([krokPriklad2] ++ krokPriklad1 :: [])).volani
         = vol ++ [krokPriklad1.metoda] ∧
       ∀ m ∈ vol, ∃ k ∈ [krokPriklad2], m = k.metoda) :=
  ⟨fun k hk => by rw [List.mem_singleton.mp hk]; rfl, rfl, rfl, rfl,
   by decide, by decide,
   C3_chyba_krok cfgPriklad behSelhani [krokPriklad2] [] krokPriklad1
     (.skalar true) (some 20)
     (fun k hk => by rw [List.mem_singleton.mp hk]; rfl)
     rfl rfl rfl (by decide) (by decide)⟩

/-- Witness for C5: the first step raises; the fault is logged, coerced to
`20`, the second step is not invoked and the protocol is closed. -/
theorem C5_vyjimka_krok_witness :
    (∀ k ∈ ([] : List Krok), krokPokracuje cfgPriklad behVyjimka k = true) ∧
    konfigCesta cfgPriklad krokPriklad1.konfigKlic = .ok (.skalar true) ∧
    (Konfig.skalar true).pravdivost = true ∧
    behVyjimka krokPriklad1.metoda
      = .vyjimka "ValueError: spatna data" "Traceback (most recent call last): ..." ∧
    ((vypocetKroky cfgPriklad behVyjimka
        ([] ++ krokPriklad1 :: [krokPriklad2])).navrat = .ok (some 20) ∧
     ("Chyba při volání metody " ++ krokPriklad1.metoda ++ ": "
         ++ "ValueError: spatna data" ++ " \n "
         ++ "Traceback (most recent call last): ...")
       ∈ (vypocetKroky cfgPriklad behVyjimka
         ([] ++ krokPriklad1 :: [krokPriklad2])).log ∧
     (∃ vol, (vypocetKroky cfgPriklad behVyjimka
         ([] ++ krokPriklad1 :: [krokPriklad2])).volani
         = vol ++ [krokPriklad1.metoda] ∧
       ∀ m ∈ vol, ∃ k ∈ ([] : List Krok), m = k.metoda) ∧
     (spiMain "CZ0001" "Lesy a.s." cfgPriklad behVyjimka
        ([] ++ krokPriklad1 :: [krokPriklad2])).log.getLast?
       = some "Uzavření protokolu") :=
  ⟨fun _ hk => absurd hk (List.not_mem_nil _), rfl, rfl, rfl,
   C5_vyjimka_krok "CZ0001" "Lesy a.s." cfgPriklad behVyjimka [] [krokPriklad2]
     krokPriklad1 (.skalar true) "ValueError: spatna data"
     "Traceback (most recent call last): ..."
     (fun _ hk => absurd hk (List.not_mem_nil _)) rfl rfl rfl⟩

/-- C1: the claim says the process exit code is `0` when every enabled step
completes and `1` when the run is stopped by an unresolved warning or a
failed step.  The code violates the second half: `spi.vypocet` does return
`1` after a failed step (result `20`) and after an unresolved warning
(result `10` with `ignorovat_varovani` falsy), but `vypocet.main` discards
that value and implicitly returns `None`, so `sys.exit(main())` terminates
the process with exit code `0` in all of these runs. -/
theorem C1_exit_kod_selhani :
    (vypocet "CZ0001" "Lesy a.s." cfgPriklad behSelhani
      [krokPriklad1, krokPriklad2]).navrat = .ok (some 1) ∧
    (spiMain "CZ0001" "Lesy a.s." cfgPriklad behSelhani
      [krokPriklad1, krokPriklad2]).exitKod = 0 ∧
    (vypocet "CZ0001" "Lesy a.s." cfgPriklad behVarovani
      [krokPriklad1, krokPriklad2]).navrat = .ok (some 1) ∧
    (spiMain "CZ0001" "Lesy a.s." cfgPriklad behVarovani
      [krokPriklad1, krokPriklad2]).exitKod = 0 ∧
    (spiMain "CZ0001" "Lesy a.s." cfgPriklad behUspech
      [krokPriklad1, krokPriklad2]).exitKod = 0 :=
  ⟨rfl, rfl, rfl, rfl, rfl⟩

/-- C4: when every candidate fails to fit, `srovnej_funkce` itself does end
with the sentinel (`nejlepsi_funkce = None`, empty comparison table), but the
model-selection operation `zpracuj_data` then evaluates
`self.funkce[pouzita_funkce]` with `pouzita_funkce = None` and raises
`KeyError` instead of returning the `(None, None)` sentinel to its caller —
the caller's `model_info is None` branch (spi.py, lines 1353–1355) is
unreachable. -/
theorem C4_vsechny_kandidatky_selzou :
    (srovnej_funkce (fun _ => none)).nejlepsiFunkce = none ∧
    (srovnej_funkce (fun _ => none)).vysledky = [] ∧
    zpracujDataVyberFunkce (fun _ => none) = .error "KeyError: None" :=
  ⟨rfl, rfl, rfl⟩

/-- C8: for the `check_range_or_zero(min, max)` predicate, the value `0`
passes regardless of the bounds, every `x` with `min ≤ x ≤ max` passes, and
every non-zero `x` strictly outside `[min, max]` fails. -/
theorem C8_check_range_or_zero (min_val max_val x : ℚ) :
    check_range_or_zero min_val max_val 0 = true ∧
    (min_val ≤ x → x ≤ max_val → check_range_or_zero min_val max_val x = true) ∧
    (x ≠ 0 → (x < min_val ∨ max_val < x) →
      check_range_or_zero min_val max_val x = false) := by
  refine ⟨?_, fun h1 h2 => ?_, fun hx hrozsah => ?_⟩
  · simp [check_range_or_zero]
  · simp [check_range_or_zero, h1, h2]
  · rcases hrozsah with h | h
    · simp [check_range_or_zero, hx, not_le.mpr h]
    · simp [check_range_or_zero, hx, not_le.mpr h]

/-- Witness for C8 at `min = 1`, `max = 5`: `0` passes, `3` passes, `9`
fails. -/
theorem C8_check_range_or_zero_witness :
    check_range_or_zero 1 5 0 = true ∧
    ((1:ℚ) ≤ 3 ∧ (3:ℚ) ≤ 5 ∧ check_range_or_zero 1 5 3 = true) ∧
    ((9:ℚ) ≠ 0 ∧ (5:ℚ) < 9 ∧ check_range_or_zero 1 5 9 = false) :=
  ⟨(C8_check_range_or_zero 1 5 3).1,
   ⟨by norm_num, by norm_num,
    (C8_check_range_or_zero 1 5 3).2.1 (by norm_num) (by norm_num)⟩,
   ⟨by norm_num, by norm_num,
    (C8_check_range_or_zero 1 5 9).2.2 (by norm_num) (Or.inr (by norm_num))⟩⟩

/-- C9: `dopln_des_mista` with `pocet = 0` returns exactly the integer part
(the fraction is dropped, never rounded); with `pocet > 0` it appends a
fraction of length `max pocet (length of the original fraction)` — a missing
or short fraction is right-padded with zeros to `pocet` digits, a fraction
that is already at least `pocet` digits long is returned unchanged. -/
theorem C9_dopln_des_mista (cela des : List Char) (pocet : Nat)
    (hc : '.' ∉ cela) (hd : '.' ∉ des) :
    (dopln_des_mista cela 0 = cela ∧
     dopln_des_mista (cela ++ '.' :: des) 0 = cela) ∧
    (0 < pocet →
      dopln_des_mista cela pocet = cela ++ '.' :: List.replicate pocet '0' ∧
      dopln_des_mista (cela ++ '.' :: des) pocet
        = cela ++ '.' :: ljust_nuly des pocet ∧
      (ljust_nuly des pocet).length = max pocet des.length ∧
      (pocet ≤ des.length → ljust_nuly des pocet = des)) := by
  have hbez := rozdel_tecky_bez_tecky cela hc
  have hs := rozdel_tecky_s_teckou cela des hc
  have hdes := rozdel_tecky_bez_tecky des hd
  refine ⟨⟨?_, ?_⟩, fun hp => ⟨?_, ?_, ?_, fun hle => ?_⟩⟩
  · simp [dopln_des_mista, hbez]
  · simp [dopln_des_mista, hs, hdes]
  · simp [dopln_des_mista, hbez, Nat.pos_iff_ne_zero.mp hp]
  · simp [dopln_des_mista, hs, hdes, Nat.pos_iff_ne_zero.mp hp]
  · simp [ljust_nuly]
    omega
  · simp [ljust_nuly, Nat.sub_eq_zero_of_le hle]

/-- Witness for C9 at input `"12.3"` with `pocet = 2` (and `pocet = 0`). -/
theorem C9_dopln_des_mista_witness :
    ('.' ∉ (['1', '2'] : List Char)) ∧ ('.' ∉ (['3'] : List Char)) ∧
    ((dopln_des_mista ['1', '2'] 0 = ['1', '2'] ∧
      dopln_des_mista (['1', '2'] ++ '.' :: ['3']) 0 = ['1', '2']) ∧
     (0 < 2 →
       dopln_des_mista ['1', '2'] 2 = ['1', '2'] ++ '.' :: List.replicate 2 '0' ∧
       dopln_des_mista (['1', '2'] ++ '.' :: ['3']) 2
         = ['1', '2'] ++ '.' :: ljust_nuly ['3'] 2 ∧
       (ljust_nuly ['3'] 2).length = max 2 (['3'] : List Char).length ∧
       (2 ≤ (['3'] : List Char).length → ljust_nuly ['3'] 2 = ['3']))) :=
  ⟨by decide, by decide,
   C9_dopln_des_mista ['1', '2'] ['3'] 2 (by decide) (by decide)⟩

/-- C10: `oprav_format_cisel` returns a fresh dictionary built from a copy of
the source (`zdroj.copy()`), so the source is never written to; every key of
the source absent from the format dictionary keeps its original value, keys
present in both are reformatted with `dopln_des_mista`, and keys only in the
format dictionary are not added. -/
theorem C10_oprav_format_cisel (zdroj : List (String × List Char))
    (format : List (String × Nat)) (hnd : (format.map Prod.fst).Nodup)
    (k : String) :
    (oprav_format_cisel zdroj format).lookup k =
      (match format.lookup k, zdroj.lookup k with
       | some pocet, some hodnota => some (dopln_des_mista hodnota pocet)
       | _, _ => zdroj.lookup k) :=
  oprav_foldl_lookup zdroj format zdroj k hnd

/-- Witness for C10: a source with keys `a`, `b` and a format with keys `a`,
`c`: `a` is reformatted, `b` keeps its value, `c` is not added. -/
theorem C10_oprav_format_cisel_witness :
    ((([("a", 2), ("c", 1)] : List (String × Nat)).map Prod.fst).Nodup ∧
     (oprav_format_cisel [("a", ['1', '.', '5']), ("b", ['2'])]
        [("a", 2), ("c", 1)]).lookup "a" = some ['1', '.', '5', '0'] ∧
     (oprav_format_cisel [("a", ['1', '.', '5']), ("b", ['2'])]
        [("a", 2), ("c", 1)]).lookup "b" = some ['2'] ∧
     (oprav_format_cisel [("a", ['1', '.', '5']), ("b", ['2'])]
        [("a", 2), ("c", 1)]).lookup "c" = none) := by
  refine ⟨by decide, ?_, ?_, ?_⟩
  · rw [C10_oprav_format_cisel _ _ (by decide) "a"]; rfl
  · rw [C10_oprav_format_cisel _ _ (by decide) "b"]; rfl
  · rw [C10_oprav_format_cisel _ _ (by decide) "c"]; rfl

theorem prvniMaxBeh_nejaky :
    ∀ (zbytek : List (String × FitVysledek)) (p : String × FitVysledek),
      ∃ q, prvniMaxBeh (some p) zbytek = some q ∧ jePrvniMax (p :: zbytek) q := by
  intro zbytek
  induction zbytek with
  | nil =>
    intro p
    exact ⟨p, rfl, [], [], rfl, by simp, by simp⟩
  | cons x r ih =>
    intro p
    by_cases hlt : p.2.r2 < x.2.r2
    · obtain ⟨q, hq, l1, l2, hsplit, hl1, hl2⟩ := ih x
      have hpq : p.2.r2 < q.2.r2 := by
        cases l1 with
        | nil =>
          have hx : x = q := by
            have := hsplit
            simp only [List.nil_append] at this
            exact (List.cons.injEq _ _ _ _ ▸ this).1
          exact hx ▸ hlt
        | cons a t =>
          have hax : a = x := by
            have := hsplit
            simp only [List.cons_append] at this
            exact ((List.cons.injEq _ _ _ _ ▸ this).1).symm
          have hxmem : x ∈ a :: t := by rw [hax]; exact List.mem_cons_self _ _
          exact lt_trans hlt (hl1 x hxmem)
      refine ⟨q, ?_, p :: l1, l2, ?_, ?_, hl2⟩
      · simp only [prvniMaxBeh, if_pos hlt]
        exact hq
      · rw [List.cons_append, ← hsplit]
      · intro e he
        rcases List.mem_cons.mp he with rfl | he'
        · exact hpq
        · exact hl1 e he'
    · obtain ⟨q, hq, l1, l2, hsplit, hl1, hl2⟩ := ih p
      have hxle : x.2.r2 ≤ p.2.r2 := le_of_not_lt hlt
      cases l1 with
      | nil =>
        have hpq : p = q := by
          have := hsplit
          simp only [List.nil_append] at this
          exact (List.cons.injEq _ _ _ _ ▸ this).1
        have hrl : r = l2 := by
          have := hsplit
          simp only [List.nil_append] at this
          exact (List.cons.injEq _ _ _ _ ▸ this).2
        refine ⟨q, ?_, [], x :: l2, ?_, by simp, ?_⟩
        · simp only [prvniMaxBeh, if_neg hlt]
          exact hq
        · rw [List.nil_append, ← hpq, ← hrl]
        · intro e he
          rcases List.mem_cons.mp he with rfl | he'
          · exact hpq ▸ hxle
          · exact hl2 e he'
      | cons a t =>
        have hap : a = p := by
          have := hsplit
          simp only [List.cons_append] at this
          exact ((List.cons.injEq _ _ _ _ ▸ this).1).symm
        have hrt : r = t ++ q :: l2 := by
          have := hsplit
          simp only [List.cons_append] at this
          exact (List.cons.injEq _ _ _ _ ▸ this).2
        have hpmem : p ∈ a :: t := by rw [hap]; exact List.mem_cons_self _ _
        have hpq : p.2.r2 < q.2.r2 := hl1 p hpmem
        refine ⟨q, ?_, p :: x :: t, l2, ?_, ?_, hl2⟩
        · simp only [prvniMaxBeh, if_neg hlt]
          exact hq
        · rw [hrt]; simp
        · intro e he
          rcases List.mem_cons.mp he with rfl | he'
          · exact hpq
          · rcases List.mem_cons.mp he' with rfl | he''
            · exact lt_of_le_of_lt hxle hpq
            · exact hl1 e (hap ▸ List.mem_cons_of_mem a he'')

theorem prvniMaxBeh_zacatek (l : List (String × FitVysledek)) (h : l ≠ []) :
    ∃ q, prvniMaxBeh none l = some q ∧ jePrvniMax l q := by
  cases l with
  | nil => exact absurd rfl h
  | cons x r =>
    obtain ⟨q, hq, hmax⟩ := prvniMaxBeh_nejaky r x
    exact ⟨q, hq, hmax⟩

theorem srovnej_foldl_odpovida (fituj : String → Option FitVysledek) :
    ∀ (nazvy : List String) (s : Srovnani) (acc : Option (String × FitVysledek)),
      stavOdpovida s acc →
      stavOdpovida (nazvy.foldl (srovnejKrok fituj) s)
        (prvniMaxBeh acc (uspesneFity fituj nazvy)) := by
  intro nazvy
  induction nazvy with
  | nil =>
    intro s acc h
    have : prvniMaxBeh acc (uspesneFity fituj []) = acc := by
      cases acc <;> rfl
    rw [List.foldl_nil, this]
    exact h
  | cons n t ih =>
    intro s acc h
    rw [List.foldl_cons]
    cases hf : fituj n with
    | none =>
      have hkrok : srovnejKrok fituj s n = s := by
        simp [srovnejKrok, hf]
      have huspesne : uspesneFity fituj (n :: t) = uspesneFity fituj t := by
        simp [uspesneFity, List.filterMap_cons, hf]
      rw [hkrok, huspesne]
      exact ih s acc h
    | some f =>
      have huspesne : uspesneFity fituj (n :: t) = (n, f) :: uspesneFity fituj t := by
        simp [uspesneFity, List.filterMap_cons, hf]
      rw [huspesne]
      cases acc with
      | none =>
        obtain ⟨h1, h2, h3, h4⟩ := h
        have hlt : s.nejlepsiR2 < (f.r2 : WithBot ℚ) := by
          rw [h4]; exact WithBot.bot_lt_coe _
        have hs : stavOdpovida (srovnejKrok fituj s n) (some (n, f)) := by
          simp only [srovnejKrok, hf, if_pos hlt]
          exact ⟨rfl, rfl, rfl, rfl⟩
        have hbeh : prvniMaxBeh none ((n, f) :: uspesneFity fituj t)
            = prvniMaxBeh (some (n, f)) (uspesneFity fituj t) := rfl
        rw [hbeh]
        exact ih _ (some (n, f)) hs
      | some p =>
        obtain ⟨h1, h2, h3, h4⟩ := h
        by_cases hlt : p.2.r2 < f.r2
        case pos =>
          have hlt' : s.nejlepsiR2 < (f.r2 : WithBot ℚ) := by
            rw [h4]; exact WithBot.coe_lt_coe.mpr hlt
          have hs : stavOdpovida (srovnejKrok fituj s n) (some (n, f)) := by
            simp only [srovnejKrok, hf, if_pos hlt']
            exact ⟨rfl, rfl, rfl, rfl⟩
          have hbeh : prvniMaxBeh (some p) ((n, f) :: uspesneFity fituj t)
              = prvniMaxBeh (some (n, f)) (uspesneFity fituj t) := by
            simp only [prvniMaxBeh, if_pos hlt]
          rw [hbeh]
          exact ih _ (some (n, f)) hs
        case neg =>
          have hnlt : ¬(s.nejlepsiR2 < (f.r2 : WithBot ℚ)) := by
            rw [h4]; exact fun hc => hlt (WithBot.coe_lt_coe.mp hc)
          have hs : stavOdpovida (srovnejKrok fituj s n) (some p) := by
            simp only [srovnejKrok, hf, if_neg hnlt]
            exact ⟨h1, h2, h3, h4⟩
          have hbeh : prvniMaxBeh (some p) ((n, f) :: uspesneFity fituj t)
              = prvniMaxBeh (some p) (uspesneFity fituj t) := by
            simp only [prvniMaxBeh, if_neg hlt]
          rw [hbeh]
          exact ih _ (some p) hs

/-- C6: when at least one candidate converges, `srovnej_funkce` selects a
successful fit attaining the maximum R² among all candidates that converged,
and on an exact R² tie it keeps the candidate encountered first in the fixed
iteration order — the reported parameters and RMSE are those of that first
maximal fit, so RMSE never re-breaks a tie. -/
theorem C6_vyber_nejlepsiho (fituj : String → Option FitVysledek)
    (h : ∃ n ∈ nazvyFunkci, (fituj n).isSome) :
    ∃ p : String × FitVysledek,
      (srovnej_funkce fituj).nejlepsiFunkce = some p.1 ∧
      (srovnej_funkce fituj).nejlepsiParametry = some p.2.parametry ∧
      (srovnej_funkce fituj).nejlepsiRmse = some p.2.rmse ∧
      (srovnej_funkce fituj).nejlepsiR2 = (p.2.r2 : WithBot ℚ) ∧
      jePrvniMax (uspesneFity fituj nazvyFunkci) p := by
  obtain ⟨n, hn, hsome⟩ := h
  obtain ⟨f, hf⟩ := Option.isSome_iff_exists.mp hsome
  have hmem : (n, f) ∈ uspesneFity fituj nazvyFunkci :=
    List.mem_filterMap.mpr ⟨n, hn, by rw [hf]; rfl⟩
  have hne : uspesneFity fituj nazvyFunkci ≠ [] := List.ne_nil_of_mem hmem
  have hodp := srovnej_foldl_odpovida fituj nazvyFunkci srovnaniZacatek none
    ⟨rfl, rfl, rfl, rfl⟩
  obtain ⟨q, hq, hmax⟩ := prvniMaxBeh_zacatek _ hne
  rw [hq] at hodp
  obtain ⟨h1, h2, h3, h4⟩ := hodp
  exact ⟨q, h1, h2, h3, h4, hmax⟩

/-- Witness for C6 with an exact R² tie between `korf` and `naslund`:
`korf` comes first in the iteration order, so it is selected even though
`naslund` has the smaller RMSE. -/
theorem C6_vyber_nejlepsiho_witness :
    (∃ n ∈ nazvyFunkci, (fitujPriklad n).isSome) ∧
    ∃ p : String × FitVysledek,
      (srovnej_funkce fitujPriklad).nejlepsiFunkce = some p.1 ∧
      (srovnej_funkce fitujPriklad).nejlepsiParametry = some p.2.parametry ∧
      (srovnej_funkce fitujPriklad).nejlepsiRmse = some p.2.rmse ∧
      (srovnej_funkce fitujPriklad).nejlepsiR2 = (p.2.r2 : WithBot ℚ) ∧
      jePrvniMax (uspesneFity fitujPriklad nazvyFunkci) p :=
  ⟨by decide, C6_vyber_nejlepsiho fitujPriklad (by decide)⟩

theorem selhaniSloupce_delka (p : SloupecPravidlo) :
    ∀ (radky : List Radek) (i : Nat),
      (selhaniSloupce p i radky).length =
        (radky.filter (fun r => !p.kontrola (hodnotaSloupce r p.nazev))).length := by
  intro radky
  induction radky with
  | nil => intro i; rfl
  | cons r rest ih =>
    intro i
    cases hk : p.kontrola (hodnotaSloupce r p.nazev) <;>
      simp [selhaniSloupce, List.filter_cons, hk, ih]

theorem pripadySelhani_delka (pravidla : List SloupecPravidlo) (radky : List Radek) :
    (pripadySelhani pravidla radky).length = pocetPoruseni pravidla radky := by
  induction pravidla with
  | nil => rfl
  | cons p t ih =>
    simp [pripadySelhani, pocetPoruseni, List.flatMap_cons, selhaniSloupce_delka,
      ih, List.length_append]
    simp [pripadySelhani, pocetPoruseni] at ih
    exact ih

theorem selhaniSloupce_uplnost (p : SloupecPravidlo) :
    ∀ (radky : List Radek) (i j : Nat) (r : Radek),
      radky[j]? = some r →
      p.kontrola (hodnotaSloupce r p.nazev) = false →
      (⟨p.nazev, i + j, hodnotaSloupce r p.nazev⟩ : PripadSelhani)
        ∈ selhaniSloupce p i radky := by
  intro radky
  induction radky with
  | nil => intro i j r hr; simp at hr
  | cons r0 rest ih =>
    intro i j r hr hk
    cases j with
    | zero =>
      simp only [List.getElem?_cons_zero, Option.some.injEq] at hr
      subst hr
      rw [selhaniSloupce, hk]
      simp
    | succ j =>
      simp only [List.getElem?_cons_succ] at hr
      have hmem := ih (i + 1) j r hr hk
      have hidx : i + 1 + j = i + (j + 1) := by omega
      rw [hidx] at hmem
      cases hk0 : p.kontrola (hodnotaSloupce r0 p.nazev) <;>
        simp [selhaniSloupce, hk0, hmem]

theorem pripadySelhani_uplnost (pravidla : List SloupecPravidlo) (radky : List Radek)
    (p : SloupecPravidlo) (hp : p ∈ pravidla) (j : Nat) (r : Radek)
    (hr : radky[j]? = some r)
    (hk : p.kontrola (hodnotaSloupce r p.nazev) = false) :
    (⟨p.nazev, j, hodnotaSloupce r p.nazev⟩ : PripadSelhani)
      ∈ pripadySelhani pravidla radky := by
  have hmem := selhaniSloupce_uplnost p radky 0 j r hr hk
  rw [Nat.zero_add] at hmem
  exact List.mem_flatMap.mpr ⟨p, hp, hmem⟩

theorem importCsvDatOd_navrat_10 :
    ∀ (soubory : List SouborImport),
      (∀ t ∈ soubory, t.provadet = true → t.existuje = true) →
      (importCsvDatOd 10 soubory).navrat = 10 := by
  intro soubory
  induction soubory with
  | nil => intro _; rfl
  | cons t rest ih =>
    intro hex
    have hrest : ∀ u ∈ rest, u.provadet = true → u.existuje = true :=
      fun u hu => hex u (List.mem_cons_of_mem _ hu)
    cases hp : t.provadet
    · simp only [importCsvDatOd, hp, Bool.false_eq_true, if_false]
      exact ih hrest
    · have he : t.existuje = true := hex t (List.mem_cons_self _ _) hp
      simp only [importCsvDatOd, hp, if_true, he, Bool.not_true,
        Bool.false_eq_true, if_false]
      cases hpr : t.pravidla with
      | none => exact ih hrest
      | some pr =>
        cases hie : (pripadySelhani pr t.radky).isEmpty <;>
          simp only [hie, Bool.false_eq_true, if_false, if_true] <;>
          exact ih hrest

theorem importCsvDatOd_hlaseni (s : SouborImport) (pr : List SloupecPravidlo) :
    ∀ (soubory : List SouborImport) (v : Int),
      (∀ t ∈ soubory, t.provadet = true → t.existuje = true) →
      s ∈ soubory → s.provadet = true → s.pravidla = some pr →
      pripadySelhani pr s.radky ≠ [] →
      (s.nazev, pripadySelhani pr s.radky) ∈ (importCsvDatOd v soubory).hlaseni ∧
        (importCsvDatOd v soubory).navrat = 10 := by
  intro soubory
  induction soubory with
  | nil => intro v _ hmem; exact absurd hmem (List.not_mem_nil _)
  | cons t rest ih =>
    intro v hex hmem hprov hpr hviol
    have hrest : ∀ u ∈ rest, u.provadet = true → u.existuje = true :=
      fun u hu => hex u (List.mem_cons_of_mem _ hu)
    rcases List.mem_cons.mp hmem with rfl | hmem'
    · have he : s.existuje = true := hex s (List.mem_cons_self _ _) hprov
      have hie : (pripadySelhani pr s.radky).isEmpty = false := by
        cases hl : pripadySelhani pr s.radky with
        | nil => exact absurd hl hviol
        | cons a u => rfl
      simp only [importCsvDatOd, hprov, if_true, he, Bool.not_true,
        Bool.false_eq_true, if_false, hpr, hie]
      exact ⟨List.mem_cons_self _ _, importCsvDatOd_navrat_10 rest hrest⟩
    · cases hp : t.provadet
      · simp only [importCsvDatOd, hp, Bool.false_eq_true, if_false]
        exact ih v hrest hmem' hprov hpr hviol
      · have he : t.existuje = true := hex t (List.mem_cons_self _ _) hp
        simp only [importCsvDatOd, hp, if_true, he, Bool.not_true,
          Bool.false_eq_true, if_false]
        cases hprt : t.pravidla with
        | none =>
          obtain ⟨hh, hn⟩ := ih v hrest hmem' hprov hpr hviol
          exact ⟨hh, hn⟩
        | some prt =>
          cases hie : (pripadySelhani prt t.radky).isEmpty
          · obtain ⟨hh, hn⟩ := ih 10 hrest hmem' hprov hpr hviol
            simp only [hie, Bool.false_eq_true, if_false]
            exact ⟨List.mem_cons_of_mem _ hh, hn⟩
          · obtain ⟨hh, hn⟩ := ih v hrest hmem' hprov hpr hviol
            simp only [hie, if_true]
            exact ⟨hh, hn⟩

theorem importCsvDatOd_ulozeno :
    ∀ (soubory : List SouborImport) (v : Int),
      (∀ t ∈ soubory, t.provadet = true → t.existuje = true) →
      ∀ t ∈ soubory, t.provadet = true →
        t.nazev ∈ (importCsvDatOd v soubory).ulozeno := by
  intro soubory
  induction soubory with
  | nil => intro v _ t hmem; exact absurd hmem (List.not_mem_nil _)
  | cons t0 rest ih =>
    intro v hex t hmem hprov
    have hrest : ∀ u ∈ rest, u.provadet = true → u.existuje = true :=
      fun u hu => hex u (List.mem_cons_of_mem _ hu)
    rcases List.mem_cons.mp hmem with rfl | hmem'
    · have he : t.existuje = true := hex t (List.mem_cons_self _ _) hprov
      simp only [importCsvDatOd, hprov, if_true, he, Bool.not_true,
        Bool.false_eq_true, if_false]
      cases hprt : t.pravidla with
      | none => exact List.mem_cons_self _ _
      | some prt =>
        cases hie : (pripadySelhani prt t.radky).isEmpty <;>
          simp only [hie, Bool.false_eq_true, if_false, if_true] <;>
          exact List.mem_cons_self _ _
    · cases hp : t0.provadet
      · simp only [importCsvDatOd, hp, Bool.false_eq_true, if_false]
        exact ih v hrest t hmem' hprov
      · have he : t0.existuje = true := hex t0 (List.mem_cons_self _ _) hp
        simp only [importCsvDatOd, hp, if_true, he, Bool.not_true,
          Bool.false_eq_true, if_false]
        cases hprt : t0.pravidla with
        | none => exact List.mem_cons_of_mem _ (ih v hrest t hmem' hprov)
        | some prt =>
          cases hie : (pripadySelhani prt t0.radky).isEmpty
          · simp only [hie, Bool.false_eq_true, if_false]
            exact List.mem_cons_of_mem _ (ih 10 hrest t hmem' hprov)
          · simp only [hie, if_true]
            exact List.mem_cons_of_mem _ (ih v hrest t hmem' hprov)

/-- C7: for an import run in which every enabled file exists and some enabled
file with a declared schema has at least one constraint violation: the
validation report for that file lists every violating (column, row) cell —
its length equals the independently counted number of violations and each
violating cell appears in it, so validation is not fail-fast — the step
returns the warning code `10` (not a fatal code), and every enabled file,
including the violating one and all later ones, is still written to the
database. -/
theorem C7_import_csv_varovani (soubory : List SouborImport) (s : SouborImport)
    (pr : List SloupecPravidlo)
    (hex : ∀ t ∈ soubory, t.provadet = true → t.existuje = true)
    (hmem : s ∈ soubory) (hprov : s.provadet = true)
    (hpr : s.pravidla = some pr)
    (hviol : pripadySelhani pr s.radky ≠ []) :
    (import_csv_dat soubory).navrat = 10 ∧
    (s.nazev, pripadySelhani pr s.radky) ∈ (import_csv_dat soubory).hlaseni ∧
    (pripadySelhani pr s.radky).length = pocetPoruseni pr s.radky ∧
    (∀ p ∈ pr, ∀ (j : Nat) (r : Radek), s.radky[j]? = some r →
      p.kontrola (hodnotaSloupce r p.nazev) = false →
      (⟨p.nazev, j, hodnotaSloupce r p.nazev⟩ : PripadSelhani)
        ∈ pripadySelhani pr s.radky) ∧
    (∀ t ∈ soubory, t.provadet = true →
      t.nazev ∈ (import_csv_dat soubory).ulozeno) := by
  obtain ⟨hh, hn⟩ :=
    importCsvDatOd_hlaseni s pr soubory 0 hex hmem hprov hpr hviol
  exact ⟨hn, hh, pripadySelhani_delka pr s.radky,
    fun p hp j r hr hk => pripadySelhani_uplnost pr s.radky p hp j r hr hk,
    fun t ht hpt => importCsvDatOd_ulozeno soubory 0 hex t ht hpt⟩

/-- Witness for C7: the fixture `vz` file has two violating rows (values `5`
and `900` for `tloustka_km`); the run returns `10` and both files are
stored. -/
theorem C7_import_csv_varovani_witness :
    (∀ t ∈ [souborVz, souborIp], t.provadet = true → t.existuje = true) ∧
    souborVz ∈ [souborVz, souborIp] ∧ souborVz.provadet = true ∧
    souborVz.pravidla = some [pravidloTloustka] ∧
    pripadySelhani [pravidloTloustka] souborVz.radky ≠ [] ∧
    ((import_csv_dat [souborVz, souborIp]).navrat = 10 ∧
     (souborVz.nazev, pripadySelhani [pravidloTloustka] souborVz.radky)
       ∈ (import_csv_dat [souborVz, souborIp]).hlaseni ∧
     (pripadySelhani [pravidloTloustka] souborVz.radky).length
       = pocetPoruseni [pravidloTloustka] souborVz.radky ∧
     (∀ p ∈ [pravidloTloustka], ∀ (j : Nat) (r : Radek),
       souborVz.radky[j]? = some r →
       p.kontrola (hodnotaSloupce r p.nazev) = false →
       (⟨p.nazev, j, hodnotaSloupce r p.nazev⟩ : PripadSelhani)
         ∈ pripadySelhani [pravidloTloustka] souborVz.radky) ∧
     (∀ t ∈ [souborVz, souborIp], t.provadet = true →
       t.nazev ∈ (import_csv_dat [souborVz, souborIp]).ulozeno)) :=
  ⟨by intro t ht _; rcases List.mem_cons.mp ht with rfl | ht' <;> first
      | rfl
      | (rcases List.mem_cons.mp ht' with rfl | h <;> first
          | rfl
          | exact absurd h (List.not_mem_nil _)),
   List.mem_cons_self _ _, rfl, rfl, by decide,
   C7_import_csv_varovani [souborVz, souborIp] souborVz [pravidloTloustka]
     (by intro t ht _; rcases List.mem_cons.mp ht with rfl | ht' <;> first
        | rfl
        | (rcases List.mem_cons.mp ht' with rfl | h <;> first
            | rfl
            | exact absurd h (List.not_mem_nil _)))
     (List.mem_cons_self _ _) rfl rfl (by decide)⟩
